import Mathlib

/-!
Verification of the rate-limited retryable network copy service
(`remcp` client, `remcp-serv` server, `shared_lib` codec).

Shallow embedding conventions:
* Rust `&str` wire lines are modelled as `List Char` (the Rust code only
  manipulates them through `starts_with`, `split_whitespace`, `trim_end`,
  slicing at ASCII positions and `parse::<usize>`, all of which are
  reproduced below on `List Char`).
* File contents and socket payloads are `List Nat` (one `Nat` per byte).
* `usize`/`u64` quantities are `Nat`.  None of the arithmetic in the
  sources can overflow in the scenarios the claims quantify over, and the
  sources perform no wrapping arithmetic (only `/`, `min`, `max`, `+` on
  in-range values), so `Nat` is a faithful model.
* The process-wide statics `TRANSFER_RATE` and `ACTIVE_CLIENTS`
  (remcp-serv/src/main.rs:9-11) are passed as explicit `rate`/`active`
  parameters.
* The filesystem is a map `List Char → Option (List Nat)` from (already
  normalized) path strings to file contents.  `normalize_path`
  (shared_lib/src/lib.rs:55-65) is the identity on non-Windows builds,
  which is what we model.
-/

namespace RemCp

/-- Rust `char::is_whitespace`, restricted to the ASCII whitespace that can
actually appear in the protocol lines (space, tab, newline, carriage
return).  Rust additionally treats some non-ASCII code points as
whitespace; no claim depends on those. -/
def isWS (c : Char) : Bool :=
  c == ' ' || c == '\t' || c == '\n' || c == '\r'

/-- Worker for `splitWS`: `cur` is the current token accumulated in
reverse. -/
def splitWSAux : List Char → List Char → List (List Char)
  | cur, [] => if cur = [] then [] else [cur.reverse]
  | cur, c :: rest =>
    if isWS c then
      if cur = [] then splitWSAux [] rest
      else cur.reverse :: splitWSAux [] rest
    else splitWSAux (c :: cur) rest

/-- Rust `str::split_whitespace` (shared_lib/src/err_utils.rs:52,82;
remcp-serv/src/main.rs:192): split on runs of whitespace, discarding empty
tokens. -/
def splitWS (cs : List Char) : List (List Char) :=
  splitWSAux [] cs

/-- Rust `str::trim_end` (remcp-serv/src/main.rs:189): drop trailing
whitespace. -/
def trimEnd (cs : List Char) : List Char :=
  (cs.reverse.dropWhile isWS).reverse

/-- Rust `str::to_uppercase` (remcp-serv/src/main.rs:199), on the ASCII
command verbs it is applied to. -/
def toUpperL (cs : List Char) : List Char :=
  cs.map Char.toUpper

/-- Numeric value of a list of decimal digit characters. -/
def digitsVal (cs : List Char) : Nat :=
  cs.foldl (fun a c => 10 * a + (c.toNat - 48)) 0

/-- Rust `str::parse::<usize>()` / `parse::<u64>()`: an optional leading
`+` sign followed by at least one decimal digit; anything else is a parse
error (`none`).  (Rust additionally fails on overflow past the machine
word; the claims only involve in-range values.) -/
def parse_usize (cs : List Char) : Option Nat :=
  let t := if cs.head? = some '+' then cs.tail else cs
  if t ≠ [] ∧ t.all Char.isDigit then some (digitsVal t) else none

/-- Rust `parse().unwrap_or(0)` (remcp-serv/src/main.rs:207,216-217;
remcp/src/main.rs:150). -/
def parse_usize_or0 (cs : List Char) : Nat :=
  (parse_usize cs).getD 0

/-- Worker for `natChars`, with a fuel argument that any `fuel ≥ n`
makes irrelevant. -/
def natCharsF : Nat → Nat → List Char
  | 0, n => [Char.ofNat (48 + n % 10)]
  | fuel + 1, n =>
    if n < 10 then [Char.ofNat (48 + n)]
    else natCharsF fuel (n / 10) ++ [Char.ofNat (48 + n % 10)]

/-- Decimal rendering of a `usize`, as produced by Rust `Display` in the
`writeln!` format strings (e.g. `"OK {}"`, `"NEXT {}"`). -/
def natChars (n : Nat) : List Char :=
  natCharsF n n

/-- Writing a byte buffer into a file at a given position: the file cursor
semantics of `seek(SeekFrom::Start p)` followed by `write_all`.  Writing
past the end of the file zero-fills the gap (a sparse-file hole reads back
as zero bytes). -/
def writeAt (content : List Nat) (pos : Nat) (bs : List Nat) : List Nat :=
  (content.take pos ++ List.replicate (pos - content.length) 0) ++ bs ++
    content.drop (pos + bs.length)

/-! ## Protocol codec (shared_lib/src/err_utils.rs) -/

/-- Rust `GetError` (shared_lib/src/err_utils.rs:4-11). -/
inductive GetError where
  | invalidCommand
  | missingArguments
  | fileError (detail : List Char)
  | unknownCommand
  | serverBusy
  | other (detail : List Char)
deriving DecidableEq, Repr

/-- The `Display` implementation for `GetError`
(shared_lib/src/err_utils.rs:13-24). -/
def errorMessage : GetError → List Char
  | .invalidCommand => "Invalid command".data
  | .missingArguments => "Missing arguments".data
  | .fileError d => "File error: ".data ++ d
  | .unknownCommand => "Unknown command".data
  | .serverBusy => "Server is busy".data
  | .other d => "Other error: ".data ++ d

/-- Rust `ServerResponse` (shared_lib/src/err_utils.rs:39-43). -/
inductive ServerResponse where
  | ok
  | error (e : GetError)
  | next (n : Nat)
deriving DecidableEq, Repr

/-- Rust `parse_server_response` (shared_lib/src/err_utils.rs:65-92).  This is
the decoder the client actually uses for every response line.  The byte
slice `&line[4..]` is `List.drop 4` (the prefix `"ERR "` is ASCII). -/
def parse_server_response (line : List Char) : ServerResponse :=
  if "ERR ".data.isPrefixOf line then
    let errStr := line.drop 4
    if errStr = "Invalid command".data then .error .invalidCommand
    else if errStr = "Missing arguments".data then .error .missingArguments
    else if errStr = "Unknown command".data then .error .unknownCommand
    else if errStr = "Server is busy".data then .error .serverBusy
    else .error (.other errStr)
  else if "OK".data.isPrefixOf line then .ok
  else if "NEXT ".data.isPrefixOf line then
    let parts := splitWS line
    if parts.length = 2 then
      match parse_usize (parts.getD 1 []) with
      | some sz => .next sz
      | none => .error (.other "Invalid NEXT command format".data)
    else .error (.other "Invalid NEXT command format".data)
  else .error (.other "Invalid response".data)

/-! ## Server (remcp-serv/src/main.rs) -/

/-- One observable item on a TCP stream: a newline-terminated text line, or
a run of raw payload bytes. -/
inductive Event where
  | line (s : List Char)
  | bytes (bs : List Nat)
deriving DecidableEq, Repr

/-- Rust `calculate_chunk_size` (remcp-serv/src/main.rs:29-36), with the statics
`TRANSFER_RATE` and `ACTIVE_CLIENTS` as parameters.  Note the `active = 0`
branch returns the raw rate without the `max 1` floor. -/
def calculate_chunk_size (rate active : Nat) : Nat :=
  if active = 0 then rate
  else max 1 (rate / active)

/-- The `while total_sent < remaining` send loop of `handle_get`
(remcp-serv/src/main.rs:71-93).  `file.read` at cursor
`offset + total_sent` returns `min to_read (filesize - cursor)` bytes,
modelled by `take`/`drop` on the content; `fuel` bounds the number of
iterations (the Rust loop runs forever when the chunk size is 0, which
the theorems exclude by requiring at least one active client). -/
def getSendLoop (chunk : Nat) (content : List Nat) (offset remaining : Nat) :
    Nat → Nat → List Event
  | 0, _ => []
  | fuel + 1, total_sent =>
    if total_sent < remaining then
      Event.line ("NEXT ".data ++ natChars chunk) ::
        (let to_read := min chunk (remaining - total_sent)
         let buffer := (content.drop (offset + total_sent)).take to_read
         if buffer.length = 0 then []
         else Event.bytes buffer ::
           getSendLoop chunk content offset remaining fuel
             (total_sent + buffer.length))
    else []

/-- Rust `handle_get` (remcp-serv/src/main.rs:38-97): the sequence of events the
server writes to the socket for a GET of `file` at `offset`.  The
`File::open` failure detail string is OS-dependent; only its `ERR ` shape
matters to any claim. -/
def handle_get_events (file : Option (List Nat)) (offset chunk : Nat) :
    List Event :=
  match file with
  | none => [Event.line ("ERR File error: os open error".data)]
  | some content =>
    let filesize := content.length
    if offset ≥ filesize then [Event.line "OK 0".data]
    else
      let remaining := filesize - offset
      Event.line ("OK ".data ++ natChars remaining) ::
        getSendLoop chunk content offset remaining remaining 0

/-- The `while received < total_size` receive loop of `handle_put`
(remcp-serv/src/main.rs:134-159).  `incoming` is the sequence of byte runs
successive `reader.read` calls yield; an exhausted list models the peer
closing the connection (`read` returns 0). -/
def putRecvLoop (chunk total : Nat) :
    Nat → List Nat → List (List Nat) → List Event × Nat × List Nat
  | received, file, incoming =>
    if received < total then
      let ev := Event.line ("NEXT ".data ++ natChars chunk)
      match incoming with
      | [] => ([ev], received, file)
      | bs :: rest =>
        let bytes_read := min bs.length chunk
        if bytes_read = 0 then ([ev], received, file)
        else
          let bytes_to_write := min bytes_read (total - received)
          let file' := writeAt file received (bs.take bytes_to_write)
          let r := putRecvLoop chunk total (received + bytes_to_write) file' rest
          (ev :: r.1, r.2)
    else ([], received, file)

/-- Rust `handle_put` (remcp-serv/src/main.rs:99-173): events written to the
socket and the resulting file content.  Directory creation and the
open-failure branch are not modelled (no claim depends on them); the file
is opened with `create(true)` and without truncation, so it starts from
its previous content (`content0`), and `seek(offset)` puts the write
cursor at `offset = received`. -/
def handle_put_events (content0 : List Nat) (offset total chunk : Nat)
    (incoming : List (List Nat)) : List Event × Nat × List Nat :=
  let r := putRecvLoop chunk total offset content0 incoming
  (Event.line "OK".data :: r.1, r.2)

/-- The parsed form of a first command line, as dispatched by
`handle_client` (remcp-serv/src/main.rs:175-226). -/
inductive Command where
  | get (path : List Char) (offset : Nat)
  | put (path : List Char) (offset total : Nat)
  | reject (e : GetError)
deriving DecidableEq, Repr

/-- Rust `normalize_path` (shared_lib/src/lib.rs:55-65): the identity on the
non-Windows builds we model. -/
def normalize_path (p : List Char) : List Char := p

/-- The command-parsing phase of `handle_client`
(remcp-serv/src/main.rs:182-221): `none` models `read_line` returning 0
(connection closed before a line arrived).  `.reject e` means the server
sends `ERR <e>` and returns without touching the filesystem. -/
def parse_command (firstLine : Option (List Char)) : Command :=
  match firstLine with
  | none => .reject .invalidCommand
  | some raw =>
    let command := trimEnd raw
    let parts := splitWS command
    match parts with
    | [] => .reject .invalidCommand
    | p0 :: _ =>
      let cmd := toUpperL p0
      if cmd = "GET".data then
        if parts.length < 3 then .reject .missingArguments
        else .get (normalize_path (parts.getD 1 []))
          (parse_usize_or0 (parts.getD 2 []))
      else if cmd = "PUT".data then
        if parts.length < 4 then .reject .missingArguments
        else .put (normalize_path (parts.getD 1 []))
          (parse_usize_or0 (parts.getD 2 []))
          (parse_usize_or0 (parts.getD 3 []))
      else .reject .unknownCommand

/-- Rust `handle_client` (remcp-serv/src/main.rs:175-226): the events sent back
to the client and the filesystem after the connection is handled.  `fs`
maps (normalized) paths to file contents; `rate`/`active` are the shared
statics read by `calculate_chunk_size`. -/
def handle_client (firstLine : Option (List Char))
    (incoming : List (List Nat)) (rate active : Nat)
    (fs : List Char → Option (List Nat)) :
    List Event × (List Char → Option (List Nat)) :=
  match parse_command firstLine with
  | .reject e => ([Event.line ("ERR ".data ++ errorMessage e)], fs)
  | .get p off =>
    (handle_get_events (fs p) off (calculate_chunk_size rate active), fs)
  | .put p off total =>
    let content0 := (fs p).getD []
    let r := handle_put_events content0 off total
      (calculate_chunk_size rate active) incoming
    (r.1, fun q => if q = p then some r.2.2 else fs q)

/-! ## Client (remcp/src/main.rs) -/

/-- A slash-free view of a filesystem path: its directory components plus
the final file name (Rust `Path` distinguishes exactly these for
`with_extension`). -/
structure RPath where
  dir : List (List Char)
  fileName : List Char
deriving DecidableEq, Repr

/-- Position of the last `.` at index ≥ 1 in a file name, `none` if there
is no such dot.  This is where Rust `Path::file_stem` splits: a name with
no embedded dot, or whose only dot is the leading character, has no
extension. -/
def lastDotPos (cs : List Char) : Option Nat :=
  (List.range cs.length).foldl
    (fun acc i => if 1 ≤ i ∧ cs.getD i ' ' = '.' then some i else acc) none

/-- Rust `Path::file_stem` on a regular file name. -/
def file_stem (cs : List Char) : List Char :=
  match lastDotPos cs with
  | some i => cs.take i
  | none => cs

/-- Rust `Path::with_extension "part"` on the file-name component
(remcp/src/main.rs:34): replace the extension (the part after the last
embedded dot) with `part`. -/
def with_extension_part (cs : List Char) : List Char :=
  file_stem cs ++ ".part".data

/-- The marker path derived in `determine_offset_and_part_path`
(remcp/src/main.rs:33-41): `local_path.with_extension("part")`.
`with_extension` only rewrites the file-name component, so the directory
is preserved. -/
def part_path (p : RPath) : RPath :=
  { dir := p.dir, fileName := with_extension_part p.fileName }

/-- The offset computed in `determine_offset_and_part_path`
(remcp/src/main.rs:35-39): the marker file's length if it exists, else
0. -/
def determine_offset (partFile : Option (List Nat)) : Nat :=
  match partFile with
  | some c => c.length
  | none => 0

/-- How the inner GET download loop of `do_get` ended
(remcp/src/main.rs:164-200). -/
inductive GEnd where
  /-- `received < remaining_size` became false: normal loop exit. -/
  | done
  /-- An `OK` line arrived before the download finished: `break`
  (remcp/src/main.rs:191-194). -/
  | earlyOk
  /-- An `ERR` line arrived: `return Err` (remcp/src/main.rs:195-198). -/
  | errAbort (e : GetError)
  /-- `read_line` returned 0: `return Err` (remcp/src/main.rs:166-169). -/
  | connClosed
  /-- `read_exact` hit EOF short of `to_read` bytes: `return Err`
  (remcp/src/main.rs:178-184). -/
  | connLost
deriving DecidableEq, Repr

/-- The `while received < remaining_size` loop of `do_get`
(remcp/src/main.rs:164-200).  `offC` is the resume offset at which the
part file was positioned (remcp/src/main.rs:159); `fileC` is the part
file's content.  The events list models the server-to-client stream; in a
composed session each `NEXT` line is followed by a byte run of exactly the
announced size, and a malformed stream shape maps to the corresponding
error return.  Returns (received, part-file content, loop end). -/
def getClientLoop (offC remaining : Nat) :
    Nat → List Nat → List Event → Nat × List Nat × GEnd
  | received, fileC, events =>
    if received < remaining then
      match events with
      | [] => (received, fileC, .connClosed)
      | Event.bytes _ :: _ => (received, fileC, .connClosed)
      | Event.line l :: rest =>
        match parse_server_response l, rest with
        | .next c, Event.bytes bs :: rest' =>
          let to_read := min c (remaining - received)
          if bs.length < to_read then (received, fileC, .connLost)
          else getClientLoop offC remaining (received + to_read)
            (writeAt fileC (offC + received) (bs.take to_read)) rest'
        | .next _, _ => (received, fileC, .connLost)
        | .ok, _ => (received, fileC, .earlyOk)
        | .error e, _ => (received, fileC, .errAbort e)
    else (received, fileC, .done)

/-- Outcome of one `do_get` attempt (remcp/src/main.rs:116-218), viewed
through its effect on the local filesystem. -/
inductive GetResult where
  /-- The first response was fatal: `return Err` before any transfer
  (remcp/src/main.rs:141-148, 210-213).  No file is touched. -/
  | fatal (msg : List Char)
  /-- `remaining_size == 0`: prints `No data to download` and returns `Ok`
  without creating, renaming or deleting anything
  (remcp/src/main.rs:153-156). -/
  | noData
  /-- `received == remaining_size`: the part file (with content `c`) is
  renamed onto the final path (remcp/src/main.rs:202-204). -/
  | finalized (c : List Nat)
  /-- The attempt failed after the download phase began: `return Err`,
  part file retained on disk with content `pc`
  (remcp/src/main.rs:166-169, 178-184, 195-198, 205-208). -/
  | failedKeep (received : Nat) (pc : List Nat) (msg : List Char)
deriving DecidableEq, Repr

/-- One `do_get` attempt (remcp/src/main.rs:116-218) after the request was
sent: `part0` is the part file's current content (`[]` if absent — the
file is opened with `create(true)` and no truncation), `offC` the resume
offset sent in the request, `events` the server-to-client stream.  An
empty stream leaves `read_line`'s buffer empty, so the first "line" is
`""`. -/
def do_get_run (part0 : List Nat) (offC : Nat) (events : List Event) :
    GetResult :=
  let first := match events with
    | Event.line l :: rest => (l, rest)
    | _ => ([], ([] : List Event))
  match parse_server_response first.1 with
  | .error e => .fatal (errorMessage e)
  | .next _ => .fatal "Unexpected NEXT in GET".data
  | .ok =>
    let parts := splitWS first.1
    if parts.length < 2 then .fatal "Invalid server response format".data
    else
      let remaining := parse_usize_or0 (parts.getD 1 [])
      if remaining = 0 then .noData
      else
        let r := getClientLoop offC remaining 0 part0 first.2
        match r.2.2 with
        | .done =>
          if r.1 = remaining then .finalized r.2.1
          else .failedKeep r.1 r.2.1 "Incomplete download".data
        | .earlyOk =>
          if r.1 = remaining then .finalized r.2.1
          else .failedKeep r.1 r.2.1 "Incomplete download".data
        | .errAbort e => .failedKeep r.1 r.2.1 (errorMessage e)
        | .connClosed =>
          .failedKeep r.1 r.2.1 "Server closed connection".data
        | .connLost => .failedKeep r.1 r.2.1 "Connection lost".data

/-- How the inner PUT upload loop of `do_put` ended
(remcp/src/main.rs:267-302). -/
inductive PEnd where
  /-- `sent < total_size` became false: normal loop exit. -/
  | done
  /-- The local file yielded 0 bytes before completion: `break`
  (remcp/src/main.rs:282-285). -/
  | localEof
  /-- An `OK` line arrived: `break` (remcp/src/main.rs:293-296). -/
  | serverOkBreak
  /-- An `ERR` line arrived: `return Err` (remcp/src/main.rs:297-300). -/
  | errAbort (e : GetError)
  /-- `read_line` returned 0: `return Err` (remcp/src/main.rs:269-272). -/
  | connClosed
deriving DecidableEq, Repr

/-- The `while sent < total_size` loop of `do_put`
(remcp/src/main.rs:267-302).  `F` is the local file, `total = F.length`
(its `metadata` size), `script` the server's response lines.  The local
file cursor sits at `sent` (it was sought to `offset` and `sent` starts
there); the part file mirrors each chunk at the same positions.  Returns
(sent, part-file content, loop end). -/
def putClientLoop (F : List Nat) (total : Nat) :
    Nat → List Nat → List (List Char) → Nat × List Nat × PEnd
  | sent, partC, script =>
    if sent < total then
      match script with
      | [] => (sent, partC, .connClosed)
      | l :: rest =>
        match parse_server_response l with
        | .next c =>
          let remaining := total - sent
          let to_read := min c remaining
          let buffer := (F.drop sent).take to_read
          if buffer.length = 0 then (sent, partC, .localEof)
          else putClientLoop F total (sent + buffer.length)
            (writeAt partC sent buffer) rest
        | .ok => (sent, partC, .serverOkBreak)
        | .error e => (sent, partC, .errAbort e)
    else (sent, partC, .done)

/-- Outcome of one `do_put` attempt (remcp/src/main.rs:220-314), viewed
through its effect on the local part file. -/
inductive PutResult where
  /-- The first response was fatal: `return Err`
  (remcp/src/main.rs:248-256). -/
  | fatal (msg : List Char)
  /-- `sent == total_size`: the part file is removed
  (remcp/src/main.rs:304-306). -/
  | completed
  /-- `sent != total_size` after the loop, or a mid-loop `return Err`:
  the part file is retained with content `pc`
  (remcp/src/main.rs:269-272, 297-300, 307-310). -/
  | incomplete (sent : Nat) (pc : List Nat) (msg : List Char)
deriving DecidableEq, Repr

/-- One `do_put` attempt (remcp/src/main.rs:220-314) after connecting:
`F` is the local source file, `offset` the resume offset (the existing
part file's length), `part0` the part file content before the attempt,
`firstLine` the server's first response, `script` the remaining response
lines. -/
def do_put_run (F : List Nat) (offset : Nat) (part0 : List Nat)
    (firstLine : List Char) (script : List (List Char)) : PutResult :=
  let total := F.length
  match parse_server_response firstLine with
  | .error e => .fatal (errorMessage e)
  | .next _ => .fatal "Invalid server response".data
  | .ok =>
    let r := putClientLoop F total offset part0 script
    match r.2.2 with
    | .errAbort e => .incomplete r.1 r.2.1 (errorMessage e)
    | .connClosed => .incomplete r.1 r.2.1 "Server closed connection".data
    | _ =>
      if r.1 = total then .completed
      else .incomplete r.1 r.2.1 "Upload incomplete".data

/-! ## Retry wrapper (remcp/src/main.rs:43-106) -/

/-- Rust `MAX_RETRIES` (remcp/src/main.rs:9). -/
def MAX_RETRIES : Nat := 5

/-- The fixed inter-attempt backoff, in seconds
(remcp/src/main.rs:74,92). -/
def RETRY_BACKOFF_SECS : Nat := 5

/-- The observable shape of a failed attempt's `io::Error`, as inspected
by `try_operation`: whether `e.to_string()` contains `Server is busy`
(remcp/src/main.rs:62) and `e.raw_os_error()` (remcp/src/main.rs:75). -/
structure OpErr where
  msgContainsBusy : Bool
  rawOsError : Option Nat
deriving DecidableEq, Repr

/-- The condition under which `try_operation` retries instead of aborting
(remcp/src/main.rs:62-102): a busy message, or OS error 10054 (Windows
connection reset), 104 (Linux connection reset) or 110 (Linux connection
timed out). -/
def is_retryable (e : OpErr) : Bool :=
  e.msgContainsBusy ||
    (match e.rawOsError with
     | some c => c == 10054 || c == 104 || c == 110
     | none => false)

/-- The retry loop of `try_operation` (remcp/src/main.rs:43-106) from a
given attempt number.  `f n` is the outcome of attempt `n` (`none` =
success); returns (succeeded?, number of the last attempt performed).
`fuel` bounds the recursion and is `MAX_RETRIES - attempt` at every call
site, so the `fuel = 0` arm is only reached with
`attempt = MAX_RETRIES`, where the loop returns `Ok` on success and —
because `attempt ≥ MAX_RETRIES` — aborts on any error, retryable or not,
exactly as that arm does. -/
def try_operation_aux (f : Nat → Option OpErr) : Nat → Nat → Bool × Nat
  | attempt, 0 =>
    match f attempt with
    | none => (true, attempt)
    | some _ => (false, attempt)
  | attempt, fuel + 1 =>
    match f attempt with
    | none => (true, attempt)
    | some e =>
      if is_retryable e then
        if attempt ≥ MAX_RETRIES then (false, attempt)
        else try_operation_aux f (attempt + 1) fuel
      else (false, attempt)

/-- Rust `try_operation` (remcp/src/main.rs:43-106): attempts start at 1. -/
def try_operation (f : Nat → Option OpErr) : Bool × Nat :=
  try_operation_aux f 1 (MAX_RETRIES - 1)

/-- Rust `str::contains` on a literal pattern, as used by
`e.to_string().contains("Server is busy")` (remcp/src/main.rs:62). -/
def strContains (s pat : List Char) : Bool :=
  (List.range (s.length + 1)).any (fun i => pat.isPrefixOf (s.drop i))

/-- The `OpErr` view of an `io::Error` built with
`io::Error::new(ErrorKind::Other, msg)` (remcp/src/main.rs:143 etc.):
such an error has no raw OS code, and its display is `msg`. -/
def opErrOfIoMsg (msg : List Char) : OpErr :=
  { msgContainsBusy := strContains msg "Server is busy".data
    rawOsError := none }

/-! ## Composed ideal-channel sessions -/

/-- The PUT transfer with client (remcp/src/main.rs:267-302) and server
(remcp-serv/src/main.rs:134-159) composed over an ideal channel, fresh
paths (offset 0, both cursors start at 0, client `sent` = server
`received`): each turn the server announces `NEXT chunk`, the client reads
`min chunk (total - sent)` bytes from the local file `F` and sends them,
and the server writes `min bytes_read (total - received)` of them at its
cursor.  Returns the remote file content; `fuel` bounds the turns (the
Rust loops run forever when `chunk = 0`, excluded by the theorems). -/
def put_session (chunk total : Nat) (F : List Nat) :
    Nat → Nat → List Nat → List Nat
  | 0, _, file => file
  | fuel + 1, received, file =>
    if received < total then
      let to_read := min chunk (total - received)
      let buffer := (F.drop received).take to_read
      if buffer.length = 0 then file
      else
        let bytes_to_write := min buffer.length (total - received)
        put_session chunk total F fuel (received + bytes_to_write)
          (writeAt file received (buffer.take bytes_to_write))
    else file

/-- Round trip over ideal channels and fresh paths: upload `F` (client
`do_put` to server `handle_put`, offset 0, no partial present, remote file
absent), then download the resulting remote file back (server `handle_get`
to client `do_get`, offset 0, no partial present). -/
def round_trip (chunk : Nat) (F : List Nat) : GetResult :=
  let remote := put_session chunk F.length F F.length 0 []
  do_get_run [] 0 (handle_get_events (some remote) 0 chunk)

/-! ## Theorems -/

/-! ### Helper lemmas about rendered decimal numbers and tokenisation -/

theorem digit_isDigit (d : Nat) (hd : d < 10) :
    (Char.ofNat (48 + d)).isDigit = true := by
  interval_cases d <;> decide

theorem digit_not_plus (d : Nat) (hd : d < 10) : Char.ofNat (48 + d) ≠ '+' := by
  interval_cases d <;> decide

theorem digit_not_ws (d : Nat) (hd : d < 10) :
    isWS (Char.ofNat (48 + d)) = false := by
  interval_cases d <;> decide

theorem digit_toNat (d : Nat) (hd : d < 10) :
    (Char.ofNat (48 + d)).toNat = 48 + d := by
  interval_cases d <;> decide

theorem natCharsF_shape (fuel : Nat) :
    ∀ n c, c ∈ natCharsF fuel n → ∃ d, d < 10 ∧ c = Char.ofNat (48 + d) := by
  induction fuel with
  | zero =>
    intro n c hc
    simp only [natCharsF, List.mem_singleton] at hc
    exact ⟨n % 10, Nat.mod_lt _ (by omega), hc⟩
  | succ fuel ih =>
    intro n c hc
    by_cases h10 : n < 10
    · simp only [natCharsF, if_pos h10, List.mem_singleton] at hc
      exact ⟨n, h10, hc⟩
    · simp only [natCharsF, if_neg h10, List.mem_append,
        List.mem_singleton] at hc
      rcases hc with hc | hc
      · exact ih (n / 10) c hc
      · exact ⟨n % 10, Nat.mod_lt _ (by omega), hc⟩

theorem natCharsF_ne_nil (fuel n : Nat) : natCharsF fuel n ≠ [] := by
  cases fuel with
  | zero => simp [natCharsF]
  | succ fuel =>
    by_cases h10 : n < 10 <;> simp [natCharsF, h10]

theorem digitsVal_append_digit (xs : List Char) (c : Char) :
    digitsVal (xs ++ [c]) = 10 * digitsVal xs + (c.toNat - 48) := by
  unfold digitsVal
  rw [List.foldl_append]
  rfl

theorem digitsVal_natCharsF (fuel : Nat) :
    ∀ n, n ≤ fuel → digitsVal (natCharsF fuel n) = n := by
  induction fuel with
  | zero =>
    intro n hn
    have : n = 0 := by omega
    subst this
    decide
  | succ fuel ih =>
    intro n hn
    by_cases h10 : n < 10
    · simp only [natCharsF, if_pos h10]
      unfold digitsVal
      simp [List.foldl_cons, digit_toNat n h10]
    · simp only [natCharsF, if_neg h10]
      rw [digitsVal_append_digit, ih (n / 10) (by omega),
        digit_toNat (n % 10) (Nat.mod_lt _ (by omega))]
      omega

theorem natChars_shape (n : Nat) :
    ∀ c ∈ natChars n, ∃ d, d < 10 ∧ c = Char.ofNat (48 + d) :=
  fun c hc => natCharsF_shape n n c hc

theorem natChars_ne_nil (n : Nat) : natChars n ≠ [] :=
  natCharsF_ne_nil n n

theorem natChars_not_ws (n : Nat) : ∀ c ∈ natChars n, isWS c = false := by
  intro c hc
  obtain ⟨d, hd, rfl⟩ := natChars_shape n c hc
  exact digit_not_ws d hd

theorem parse_usize_natChars (n : Nat) : parse_usize (natChars n) = some n := by
  have hdig : (natChars n).all Char.isDigit = true := by
    rw [List.all_eq_true]
    intro c hc
    obtain ⟨d, hd, rfl⟩ := natChars_shape n c hc
    exact digit_isDigit d hd
  have hval : digitsVal (natChars n) = n := digitsVal_natCharsF n n le_rfl
  unfold parse_usize
  rcases hcs : natChars n with _ | ⟨c, cs⟩
  · exact absurd hcs (natChars_ne_nil n)
  · have hplus : c ≠ '+' := by
      obtain ⟨d, hd, rfl⟩ := natChars_shape n c (by rw [hcs]; simp)
      exact digit_not_plus d hd
    rw [hcs] at hdig hval
    have hhead : ((c :: cs).head? = some '+') = False := by simp [hplus]
    simp only [hhead, if_false]
    simp [hdig, hval]

/-- Consuming a run of non-whitespace characters accumulates them onto the
current token. -/
theorem splitWSAux_token (tok : List Char)
    (h : ∀ c ∈ tok, isWS c = false) :
    ∀ cur cs, splitWSAux cur (tok ++ cs) = splitWSAux (tok.reverse ++ cur) cs := by
  induction tok with
  | nil => intro cur cs; rfl
  | cons t ts ih =>
    intro cur cs
    have ht : isWS t = false := h t (by simp)
    simp only [List.cons_append, splitWSAux, ht, Bool.false_eq_true,
      if_false, List.reverse_cons, List.append_assoc, List.singleton_append]
    exact ih (fun c hc => h c (by simp [hc])) (t :: cur) cs

/-- A trailing all-non-whitespace run closes the current token. -/
theorem splitWSAux_final (ds : List Char) (h : ∀ c ∈ ds, isWS c = false)
    (cur : List Char) (hne : ¬ (cur = [] ∧ ds = [])) :
    splitWSAux cur ds = [cur.reverse ++ ds] := by
  have := splitWSAux_token ds h cur []
  rw [List.append_nil] at this
  rw [this]
  have hne2 : ds.reverse ++ cur ≠ [] := by
    intro hc
    rcases List.append_eq_nil.mp hc with ⟨h1, h2⟩
    exact hne ⟨h2, by simpa using h1⟩
  simp only [splitWSAux, if_neg hne2, List.reverse_append,
    List.reverse_reverse]

/-- Rust `split_whitespace` of `<token> <token>` is the two tokens. -/
theorem splitWS_token_space (tok ds : List Char)
    (htok : ∀ c ∈ tok, isWS c = false) (htokne : tok ≠ [])
    (hds : ∀ c ∈ ds, isWS c = false) (hdsne : ds ≠ []) :
    splitWS (tok ++ ' ' :: ds) = [tok, ds] := by
  unfold splitWS
  rw [splitWSAux_token tok htok [] (' ' :: ds), List.append_nil]
  have hcur : tok.reverse ≠ [] := by simpa using htokne
  simp only [splitWSAux, isWS, if_pos rfl]
  norm_num [hcur]
  rw [splitWSAux_final ds hds [] (by simp [hdsne])]
  simp

theorem parse_next_line (n : Nat) :
    parse_server_response ("NEXT ".data ++ natChars n) = .next n := by
  have h1 : "ERR ".data.isPrefixOf ("NEXT ".data ++ natChars n) = false := by
    show "ERR ".data.isPrefixOf
      ('N' :: 'E' :: 'X' :: 'T' :: ' ' :: natChars n) = false
    rfl
  have h2 : "OK".data.isPrefixOf ("NEXT ".data ++ natChars n) = false := by
    show "OK".data.isPrefixOf
      ('N' :: 'E' :: 'X' :: 'T' :: ' ' :: natChars n) = false
    rfl
  have h3 : "NEXT ".data.isPrefixOf ("NEXT ".data ++ natChars n) = true := by
    show "NEXT ".data.isPrefixOf
      ('N' :: 'E' :: 'X' :: 'T' :: ' ' :: natChars n) = true
    simp [List.isPrefixOf]
  have hsp : splitWS ("NEXT ".data ++ natChars n) =
      ["NEXT".data, natChars n] := by
    show splitWS ("NEXT".data ++ ' ' :: natChars n) = ["NEXT".data, natChars n]
    exact splitWS_token_space "NEXT".data (natChars n) (by decide) (by decide)
      (natChars_not_ws n) (natChars_ne_nil n)
  unfold parse_server_response
  simp only [h1, h2, h3, Bool.false_eq_true, if_false, if_true, hsp]
  simp [parse_usize_natChars n]

theorem parse_ok_line (n : Nat) :
    parse_server_response ("OK ".data ++ natChars n) = .ok := by
  have h1 : "ERR ".data.isPrefixOf ("OK ".data ++ natChars n) = false := by
    show "ERR ".data.isPrefixOf ('O' :: 'K' :: ' ' :: natChars n) = false
    rfl
  have h2 : "OK".data.isPrefixOf ("OK ".data ++ natChars n) = true := by
    show "OK".data.isPrefixOf ('O' :: 'K' :: ' ' :: natChars n) = true
    simp [List.isPrefixOf]
  unfold parse_server_response
  simp [h1, h2]

theorem splitWS_ok_line (n : Nat) :
    splitWS ("OK ".data ++ natChars n) = ["OK".data, natChars n] := by
  show splitWS ("OK".data ++ ' ' :: natChars n) = ["OK".data, natChars n]
  exact splitWS_token_space "OK".data (natChars n) (by decide) (by decide)
    (natChars_not_ws n) (natChars_ne_nil n)

theorem parse_next_line_cons (n : Nat) :
    parse_server_response ('N' :: 'E' :: 'X' :: 'T' :: ' ' :: natChars n) =
      .next n :=
  parse_next_line n

theorem parse_ok_line_cons (n : Nat) :
    parse_server_response ('O' :: 'K' :: ' ' :: natChars n) = .ok :=
  parse_ok_line n

theorem splitWS_ok_line_cons (n : Nat) :
    splitWS ('O' :: 'K' :: ' ' :: natChars n) = [['O', 'K'], natChars n] :=
  splitWS_ok_line n

theorem writeAt_eot (l : List Nat) (bs : List Nat) :
    writeAt l l.length bs = l ++ bs := by
  unfold writeAt
  rw [List.take_length, Nat.sub_self, List.replicate_zero,
    List.drop_eq_nil_of_le (by omega)]
  simp

/-- Claim C2, counterexample.  The claimed formula
`max(1, R / max(1, N))` disagrees with `calculate_chunk_size` at
`R = 0, N = 0`: the code returns the raw `TRANSFER_RATE` (here 0) when no
client is active, without the `max 1` floor, while the claimed formula
yields 1. -/
theorem calculate_chunk_size_zero_zero_cex :
    calculate_chunk_size 0 0 = 0 ∧ max 1 (0 / max 1 0) = 1 ∧
      calculate_chunk_size 0 0 ≠ max 1 (0 / max 1 0) := by
  decide

/-- Claim C2, amended.  Whenever the budget or the active-client count is
positive, the computed chunk size equals `max(1, R / max(1, N))` with
truncating division — in particular `R = 256, N = 5` gives 51, not 52 —
while at `R = 0, N = 0` the code returns 0. -/
theorem calculate_chunk_size_fair (R N : Nat) (h : 1 ≤ R ∨ 1 ≤ N) :
    calculate_chunk_size R N = max 1 (R / max 1 N) ∧
      calculate_chunk_size 256 5 = 51 ∧ calculate_chunk_size 0 0 = 0 := by
  refine ⟨?_, by decide, by decide⟩
  unfold calculate_chunk_size
  rcases Nat.eq_zero_or_pos N with hN | hN
  · subst hN
    rcases h with hR | hR
    · have h10 : max 1 0 = 1 := by decide
      simp only [if_pos rfl, h10, Nat.div_one]
      exact (Nat.max_eq_right hR).symm
    · omega
  · have : N ≠ 0 := by omega
    simp only [this, if_false]
    congr 1
    rw [Nat.max_eq_right hN]

/-- Claim C2, witness. -/
theorem calculate_chunk_size_fair_witness :
    calculate_chunk_size 256 5 = max 1 (256 / max 1 5) :=
  (calculate_chunk_size_fair 256 5 (Or.inl (by decide))).1

/-- Claim C7, counterexample.  A line that is none of the `OK`/`NEXT`/`ERR`
forms decodes to `Other "Invalid response"`, a fixed message — it does
not carry the raw input line, contrary to the claim. -/
theorem parse_server_response_other_cex :
    parse_server_response "HELLO".data =
        .error (.other "Invalid response".data) ∧
      "Invalid response".data ≠ "HELLO".data := by
  decide

/-- Claim C7, amended.  Decoding is a total function (every line maps to
exactly one `ServerResponse`, which the type of `parse_server_response`
itself witnesses), and every line that does not start with `OK`,
`ERR ` (with the space) or `NEXT ` maps to an `Other` error carrying the
fixed message `Invalid response`, not the raw line. -/
theorem parse_server_response_fallback (l : List Char)
    (h1 : "ERR ".data.isPrefixOf l = false)
    (h2 : "OK".data.isPrefixOf l = false)
    (h3 : "NEXT ".data.isPrefixOf l = false) :
    parse_server_response l = .error (.other "Invalid response".data) := by
  unfold parse_server_response
  simp [h1, h2, h3]

/-- Claim C7, witness. -/
theorem parse_server_response_fallback_witness :
    parse_server_response "GARBAGE LINE".data =
      .error (.other "Invalid response".data) :=
  parse_server_response_fallback "GARBAGE LINE".data (by decide) (by decide)
    (by decide)

/-- Claim C9, counterexample.  The derived marker path is not always
distinct from the target: for the target file name `data.part`,
`with_extension("part")` reproduces the target path itself. -/
theorem part_path_not_distinct_cex :
    part_path { dir := [], fileName := "data.part".data } =
      { dir := [], fileName := "data.part".data } := by
  decide

/-- Claim C9, amended.  The marker path is a deterministic function of the
target path, lies in the same directory, and is distinct from the target
whenever the target's file name does not already end in `.part`; the
resume offset is the marker file's byte length when it exists and 0
otherwise. -/
theorem part_path_spec (p : RPath) (q : RPath) (c : List Nat)
    (hpq : p = q) (hsfx : ".part".data.isSuffixOf p.fileName = false) :
    (part_path p).dir = p.dir ∧
      part_path p = part_path q ∧
      part_path p ≠ p ∧
      determine_offset (some c) = c.length ∧
      determine_offset none = 0 := by
  refine ⟨rfl, by rw [hpq], ?_, rfl, rfl⟩
  intro h
  have hf : with_extension_part p.fileName = p.fileName :=
    congrArg RPath.fileName h
  have : ".part".data.isSuffixOf p.fileName = true := by
    rw [← hf]
    unfold with_extension_part
    rw [List.isSuffixOf_iff_suffix]
    exact List.suffix_append _ _
  rw [this] at hsfx
  exact absurd hsfx (by decide)

/-- Claim C9, witness. -/
theorem part_path_spec_witness :
    part_path { dir := ["home".data], fileName := "file.txt".data } ≠
      { dir := ["home".data], fileName := "file.txt".data } :=
  (part_path_spec { dir := ["home".data], fileName := "file.txt".data }
    { dir := ["home".data], fileName := "file.txt".data } [] rfl
    (by decide)).2.2.1

/-- Claim C10.  A GET or PUT command whose offset (or, for PUT, totalSize)
field is present but not a valid unsigned integer is not rejected with an
`ERR` response: `parse().unwrap_or(0)` silently substitutes 0 and the
server proceeds with the corresponding handler exactly as if 0 had been
requested (the resulting `Command.get`/`Command.put` is by construction
not a `.reject`, which is the only shape that sends an `ERR` line and
closes). -/
theorem unparseable_field_defaults_to_zero (raw g p s t : List Char)
    (incoming : List (List Nat)) (rate active : Nat)
    (fs : List Char → Option (List Nat)) :
    (splitWS (trimEnd raw) = [g, p, s] → toUpperL g = "GET".data →
      parse_usize s = none →
      parse_command (some raw) = .get p 0 ∧
        handle_client (some raw) incoming rate active fs =
          (handle_get_events (fs p) 0 (calculate_chunk_size rate active),
            fs)) ∧
    (splitWS (trimEnd raw) = [g, p, s, t] → toUpperL g = "PUT".data →
      parse_usize s = none →
      parse_command (some raw) = .put p 0 (parse_usize_or0 t)) ∧
    (splitWS (trimEnd raw) = [g, p, s, t] → toUpperL g = "PUT".data →
      parse_usize t = none →
      parse_command (some raw) = .put p (parse_usize_or0 s) 0) := by
  refine ⟨fun hsp hg hs => ?_, fun hsp hg hs => ?_, fun hsp hg ht => ?_⟩
  · have hcmd : parse_command (some raw) = .get p 0 := by
      simp [parse_command, hsp, hg, normalize_path, parse_usize_or0, hs]
    refine ⟨hcmd, ?_⟩
    unfold handle_client
    rw [hcmd]
  · simp [parse_command, hsp, hg, normalize_path, parse_usize_or0, hs]
  · simp [parse_command, hsp, hg, normalize_path, parse_usize_or0, ht]

/-- Claim C10, witness. -/
theorem unparseable_field_defaults_to_zero_witness :
    parse_command (some "GET /f abc".data) = .get "/f".data 0 ∧
      parse_command (some "PUT /f abc 9".data) = .put "/f".data 0 9 :=
  ⟨((unparseable_field_defaults_to_zero "GET /f abc".data "GET".data
      "/f".data "abc".data [] [] 0 0 (fun _ => none)).1
      (by decide) (by decide) (by decide)).1,
    by
      have := (unparseable_field_defaults_to_zero "PUT /f abc 9".data
        "PUT".data "/f".data "abc".data "9".data [] 0 0 (fun _ => none)).2.1
        (by decide) (by decide) (by decide)
      simpa [parse_usize_or0, parse_usize, digitsVal] using this⟩

/-- Claim C8.  Every malformed first command line — no line at all, a
whitespace-only line, a recognized verb (`GET`/`PUT`, case-insensitive)
with too few arguments, or an unrecognized verb — makes the server send
exactly one `ERR` line whose message is `Invalid command`,
`Missing arguments` or `Unknown command` respectively, and return with
the filesystem untouched. -/
theorem malformed_command_one_err_no_fs_effect
    (incoming : List (List Nat)) (rate active : Nat)
    (fs : List Char → Option (List Nat)) :
    (handle_client none incoming rate active fs =
      ([Event.line "ERR Invalid command".data], fs)) ∧
    (∀ raw, splitWS (trimEnd raw) = [] →
      handle_client (some raw) incoming rate active fs =
        ([Event.line "ERR Invalid command".data], fs)) ∧
    (∀ raw p0 rest, splitWS (trimEnd raw) = p0 :: rest →
      toUpperL p0 = "GET".data → rest.length < 2 →
      handle_client (some raw) incoming rate active fs =
        ([Event.line "ERR Missing arguments".data], fs)) ∧
    (∀ raw p0 rest, splitWS (trimEnd raw) = p0 :: rest →
      toUpperL p0 = "PUT".data → rest.length < 3 →
      handle_client (some raw) incoming rate active fs =
        ([Event.line "ERR Missing arguments".data], fs)) ∧
    (∀ raw p0 rest, splitWS (trimEnd raw) = p0 :: rest →
      toUpperL p0 ≠ "GET".data → toUpperL p0 ≠ "PUT".data →
      handle_client (some raw) incoming rate active fs =
        ([Event.line "ERR Unknown command".data], fs)) := by
  refine ⟨?_, fun raw hsp => ?_, fun raw p0 rest hsp hg hlen => ?_,
    fun raw p0 rest hsp hg hlen => ?_, fun raw p0 rest hsp hg hp => ?_⟩
  · rfl
  · simp [handle_client, parse_command, hsp, errorMessage]
  · have hl : rest.length + 1 < 3 := by omega
    simp [handle_client, parse_command, hsp, hg, hl, errorMessage]
  · have hl : rest.length + 1 < 4 := by omega
    simp [handle_client, parse_command, hsp, hg, hl, errorMessage]
  · simp [handle_client, parse_command, hsp, hg, hp, errorMessage]

/-- Claim C8, witness. -/
theorem malformed_command_witness :
    handle_client (some "FLY x".data) [] 256 1 (fun _ => none) =
      ([Event.line "ERR Unknown command".data], fun _ => none) :=
  (malformed_command_one_err_no_fs_effect [] 256 1
      (fun _ => none)).2.2.2.2 "FLY x".data "FLY".data ["x".data]
    (by decide) (by decide) (by decide)

/-- Claim C3.  For a readable file and any request offset at or beyond the
file size, the server GET handler sends exactly the single line `OK 0` —
zero payload bytes, no `ERR` — and (like every GET) leaves the filesystem
unchanged. -/
theorem get_offset_beyond_eof (content : List Nat) (offset chunk : Nat)
    (h : content.length ≤ offset) :
    handle_get_events (some content) offset chunk =
        [Event.line "OK 0".data] ∧
      (∀ raw incoming rate active fs p off,
        parse_command (some raw) = Command.get p off →
        (handle_client (some raw) incoming rate active fs).2 = fs) := by
  constructor
  · unfold handle_get_events
    simp [h]
  · intro raw incoming rate active fs p off hcmd
    unfold handle_client
    rw [hcmd]

/-- Claim C3, witness. -/
theorem get_offset_beyond_eof_witness :
    handle_get_events (some [1, 2, 3]) 3 256 = [Event.line "OK 0".data] :=
  (get_offset_beyond_eof [1, 2, 3] 3 256 (by decide)).1

/-- The retry loop from attempt number `attempt` with
`attempt + fuel = MAX_RETRIES` behaves as a bounded retry: every attempt
before the last failed retryably, success is reported exactly when the
last attempt succeeded, and failure is surfaced exactly on a
non-retryable error or on exhausting `MAX_RETRIES` attempts. -/
theorem try_operation_aux_spec (f : Nat → Option OpErr) :
    ∀ fuel attempt, 1 ≤ attempt → attempt + fuel = MAX_RETRIES →
      attempt ≤ (try_operation_aux f attempt fuel).2 ∧
      (try_operation_aux f attempt fuel).2 ≤ MAX_RETRIES ∧
      (∀ i, attempt ≤ i → i < (try_operation_aux f attempt fuel).2 →
        ∃ e, f i = some e ∧ is_retryable e = true) ∧
      ((try_operation_aux f attempt fuel).1 = true ↔
        f (try_operation_aux f attempt fuel).2 = none) ∧
      ((try_operation_aux f attempt fuel).1 = false →
        ∃ e, f (try_operation_aux f attempt fuel).2 = some e ∧
          (is_retryable e = false ∨
            (try_operation_aux f attempt fuel).2 = MAX_RETRIES)) := by
  intro fuel
  induction fuel with
  | zero =>
    intro attempt h1 hsum
    have ha : attempt = MAX_RETRIES := by omega
    unfold try_operation_aux
    cases hf : f attempt with
    | none =>
      dsimp only
      refine ⟨le_refl _, by omega, fun i hi1 hi2 => by omega, by simp [hf],
        by simp⟩
    | some e =>
      dsimp only
      refine ⟨le_refl _, by omega, fun i hi1 hi2 => by omega,
        by simp [hf], fun _ => ⟨e, hf, Or.inr ha⟩⟩
  | succ fuel ih =>
    intro attempt h1 hsum
    have hlt : attempt < MAX_RETRIES := by omega
    unfold try_operation_aux
    cases hf : f attempt with
    | none =>
      dsimp only
      refine ⟨le_refl _, by omega, fun i hi1 hi2 => by omega, by simp [hf],
        by simp⟩
    | some e =>
      dsimp only
      by_cases hr : is_retryable e = true
      · have hge : ¬ attempt ≥ MAX_RETRIES := by omega
        simp only [hr, if_true, if_neg hge]
        have IH := ih (attempt + 1) (by omega) (by omega)
        refine ⟨by omega, IH.2.1, fun i hi1 hi2 => ?_, IH.2.2.2.1,
          IH.2.2.2.2⟩
        rcases Nat.eq_or_lt_of_le hi1 with hia | hia
        · exact ⟨e, hia ▸ hf, hr⟩
        · exact IH.2.2.1 i (by omega) hi2
      · have hr' : is_retryable e = false := by simpa using hr
        simp only [hr', Bool.false_eq_true, if_false]
        refine ⟨le_refl _, by omega, fun i hi1 hi2 => by omega,
          by simp [hf], fun _ => ⟨e, hf, Or.inl hr'⟩⟩

/-- Claim C4.  `try_operation` retries an attempt only when it failed with a
busy message or with OS error 10054/104/110 (connection reset / timed
out), performs between 1 and `MAX_RETRIES = 5` attempts, reports success
exactly when the last attempt succeeded, and when it surfaces failure the
last attempt either failed non-retryably (immediate abort, no retry
consumed) or was the `MAX_RETRIES`-th attempt (retries exhausted). -/
theorem retry_policy (f : Nat → Option OpErr) :
    1 ≤ (try_operation f).2 ∧
      (try_operation f).2 ≤ MAX_RETRIES ∧
      (∀ i, 1 ≤ i → i < (try_operation f).2 →
        ∃ e, f i = some e ∧ is_retryable e = true) ∧
      ((try_operation f).1 = true ↔ f (try_operation f).2 = none) ∧
      ((try_operation f).1 = false →
        ∃ e, f (try_operation f).2 = some e ∧
          (is_retryable e = false ∨ (try_operation f).2 = MAX_RETRIES)) :=
  try_operation_aux_spec f (MAX_RETRIES - 1) 1 (by decide) (by decide)

/-- Claim C4, witness (all five attempts fail busy; failure is surfaced at
attempt `MAX_RETRIES`). -/
theorem retry_policy_witness :
    1 ≤ (try_operation fun _ => some ⟨true, none⟩).2 ∧
      (try_operation fun _ => some ⟨true, none⟩).2 ≤ MAX_RETRIES :=
  ⟨(retry_policy fun _ => some ⟨true, none⟩).1,
    (retry_policy fun _ => some ⟨true, none⟩).2.1⟩

/-- Invariants of the GET receive loop: the received count never exceeds
the announced total, and the loop ends with `.done` exactly when the full
total has been received. -/
theorem getClientLoop_bounds (offC remaining : Nat) :
    ∀ received fileC events, received ≤ remaining →
      received ≤ (getClientLoop offC remaining received fileC events).1 ∧
        (getClientLoop offC remaining received fileC events).1 ≤ remaining ∧
        ((getClientLoop offC remaining received fileC events).2.2 =
            GEnd.done ↔
          (getClientLoop offC remaining received fileC events).1 =
            remaining) := by
  intro received fileC events
  induction received, fileC, events using getClientLoop.induct offC remaining
  case case1 received fileC hlt =>
    intro hle
    rw [getClientLoop.eq_def]
    simp only [if_pos hlt]
    exact ⟨le_refl _, hle, Iff.intro (fun h => GEnd.noConfusion h)
      (fun h => absurd h (Nat.ne_of_lt hlt))⟩
  case case2 received fileC hlt bs tl =>
    intro hle
    rw [getClientLoop.eq_def]
    simp only [if_pos hlt]
    exact ⟨le_refl _, hle, Iff.intro (fun h => GEnd.noConfusion h)
      (fun h => absurd h (Nat.ne_of_lt hlt))⟩
  case case3 received fileC hlt l c bs rest' hparse to_read hshort =>
    intro hle
    have ht : to_read = c ⊓ (remaining - received) := rfl
    rw [ht] at hshort
    rw [getClientLoop.eq_def]
    simp only [if_pos hlt, hparse, if_pos hshort]
    exact ⟨le_refl _, hle, Iff.intro (fun h => GEnd.noConfusion h)
      (fun h => absurd h (Nat.ne_of_lt hlt))⟩
  case case4 received fileC hlt l c bs rest' hparse to_read hshort ih =>
    intro hle
    have ht : to_read = c ⊓ (remaining - received) := rfl
    rw [ht] at hshort ih
    rw [getClientLoop.eq_def]
    simp only [if_pos hlt, hparse, if_neg hshort]
    have hrec := ih (by omega)
    exact ⟨by omega, hrec.2.1, hrec.2.2⟩
  case case5 received fileC hlt l rest n hparse hshape =>
    intro hle
    rcases rest with _ | ⟨e, tl⟩
    · rw [getClientLoop.eq_def]
      simp only [if_pos hlt, hparse]
      exact ⟨le_refl _, hle, Iff.intro (fun h => GEnd.noConfusion h)
        (fun h => absurd h (Nat.ne_of_lt hlt))⟩
    · rcases e with l' | bs
      · rw [getClientLoop.eq_def]
        simp only [if_pos hlt, hparse]
        exact ⟨le_refl _, hle, Iff.intro (fun h => GEnd.noConfusion h)
          (fun h => absurd h (Nat.ne_of_lt hlt))⟩
      · exact absurd rfl (fun h => hshape bs tl h)
  case case6 received fileC hlt l rest hparse =>
    intro hle
    rw [getClientLoop.eq_def]
    simp only [if_pos hlt, hparse]
    exact ⟨le_refl _, hle, Iff.intro (fun h => GEnd.noConfusion h)
      (fun h => absurd h (Nat.ne_of_lt hlt))⟩
  case case7 received fileC hlt l rest e hparse =>
    intro hle
    rw [getClientLoop.eq_def]
    simp only [if_pos hlt, hparse]
    exact ⟨le_refl _, hle, Iff.intro (fun h => GEnd.noConfusion h)
      (fun h => absurd h (Nat.ne_of_lt hlt))⟩
  case case8 received fileC events hge =>
    intro hle
    rw [getClientLoop.eq_def]
    simp only [if_neg hge]
    exact ⟨le_refl _, hle, Iff.intro (fun _ => by omega) (fun _ => trivial)⟩

/-- Invariants of the PUT send loop: the loop ends with `.done` exactly
when the sent count reached (or started past) the total; every other end
leaves it strictly below the total. -/
theorem putClientLoop_bounds (F : List Nat) (total : Nat) :
    ∀ sent partC script,
      sent ≤ (putClientLoop F total sent partC script).1 ∧
        ((putClientLoop F total sent partC script).2.2 = PEnd.done →
          ¬ (putClientLoop F total sent partC script).1 < total) ∧
        ((putClientLoop F total sent partC script).2.2 ≠ PEnd.done →
          (putClientLoop F total sent partC script).1 < total) := by
  intro sent partC script
  induction sent, partC, script using putClientLoop.induct F total
  case case1 sent partC hlt =>
    rw [putClientLoop.eq_def]
    simp only [if_pos hlt]
    exact ⟨le_refl _, And.intro (fun h => PEnd.noConfusion h) (fun _ => hlt)⟩
  case case2 sent partC hlt p0 tl c hparse rem to_read buffer hempty =>
    have hb : buffer = (F.drop sent).take (min c (total - sent)) := rfl
    rw [hb] at hempty
    rw [putClientLoop.eq_def]
    simp only [if_pos hlt, hparse, if_pos hempty]
    exact ⟨le_refl _, And.intro (fun h => PEnd.noConfusion h) (fun _ => hlt)⟩
  case case3 sent partC hlt p0 tl c hparse rem to_read buffer hempty ih =>
    have hb : buffer = (F.drop sent).take (min c (total - sent)) := rfl
    rw [hb] at hempty ih
    rw [putClientLoop.eq_def]
    simp only [if_pos hlt, hparse, if_neg hempty]
    exact ⟨by omega, ih.2.1, ih.2.2⟩
  case case4 sent partC hlt p0 tl hparse =>
    rw [putClientLoop.eq_def]
    simp only [if_pos hlt, hparse]
    exact ⟨le_refl _, And.intro (fun h => PEnd.noConfusion h) (fun _ => hlt)⟩
  case case5 sent partC hlt p0 tl e hparse =>
    rw [putClientLoop.eq_def]
    simp only [if_pos hlt, hparse]
    exact ⟨le_refl _, And.intro (fun h => PEnd.noConfusion h) (fun _ => hlt)⟩
  case case6 sent partC script hge =>
    rw [putClientLoop.eq_def]
    simp only [if_neg hge]
    exact ⟨le_refl _, fun _ => hge, fun h => absurd rfl h⟩

/-- Claim C5, counterexample.  When the server announces `OK 0` (offset at
or past EOF — e.g. a partial file that already holds all the bytes), the
received count (0) equals the announced remaining total (0), yet `do_get`
returns success *without* renaming the partial file into place: the
claimed "renamed if and only if received equals the announced total"
fails on the `remaining_size == 0` early-return path
(remcp/src/main.rs:153-156). -/
theorem get_ok_zero_no_rename_cex :
    do_get_run [7] 5 [Event.line "OK 0".data] = .noData ∧
      do_get_run [7] 5 [Event.line "OK 0".data] ≠ .finalized [7] := by
  decide

/-- Claim C5, amended.  Once the download phase is entered (the first
response is a well-formed `OK <n>` with `n ≥ 1`), the partial file is
renamed into the final path iff the received byte count equals `n`; if
the loop ends short of `n` the attempt returns an error and the partial
file is retained with exactly the bytes written so far.  Likewise for
PUT: the partial marker is deleted iff the sent count equals the local
file's total size, and otherwise the attempt returns an error and the
marker is retained.  (When the announced total is 0, GET returns success
without touching the partial file — see the counterexample.) -/
theorem finalize_iff_exact_completion (part0 : List Nat) (offC : Nat)
    (l : List Char) (rest : List Event) (R : Nat)
    (F : List Nat) (off : Nat) (p0 : List Nat) (first : List Char)
    (script : List (List Char)) :
    (parse_server_response l = .ok → ¬ (splitWS l).length < 2 →
      parse_usize_or0 ((splitWS l).getD 1 []) = R → 1 ≤ R →
      ((do_get_run part0 offC (Event.line l :: rest) =
          .finalized (getClientLoop offC R 0 part0 rest).2.1 ↔
        (getClientLoop offC R 0 part0 rest).1 = R) ∧
       ((getClientLoop offC R 0 part0 rest).1 ≠ R →
        ∃ m, do_get_run part0 offC (Event.line l :: rest) =
          .failedKeep (getClientLoop offC R 0 part0 rest).1
            (getClientLoop offC R 0 part0 rest).2.1 m))) ∧
    (parse_server_response first = .ok →
      ((do_put_run F off p0 first script = .completed ↔
        (putClientLoop F F.length off p0 script).1 = F.length) ∧
       ((putClientLoop F F.length off p0 script).1 ≠ F.length →
        ∃ m, do_put_run F off p0 first script =
          .incomplete (putClientLoop F F.length off p0 script).1
            (putClientLoop F F.length off p0 script).2.1 m))) := by
  constructor
  · intro hok hlen hrem hR
    have hbounds := getClientLoop_bounds offC R 0 part0 rest (by omega)
    have hred : do_get_run part0 offC (Event.line l :: rest) =
        match (getClientLoop offC R 0 part0 rest).2.2 with
        | .done =>
          if (getClientLoop offC R 0 part0 rest).1 = R then
            .finalized (getClientLoop offC R 0 part0 rest).2.1
          else .failedKeep (getClientLoop offC R 0 part0 rest).1
            (getClientLoop offC R 0 part0 rest).2.1
            "Incomplete download".data
        | .earlyOk =>
          if (getClientLoop offC R 0 part0 rest).1 = R then
            .finalized (getClientLoop offC R 0 part0 rest).2.1
          else .failedKeep (getClientLoop offC R 0 part0 rest).1
            (getClientLoop offC R 0 part0 rest).2.1
            "Incomplete download".data
        | .errAbort e => .failedKeep (getClientLoop offC R 0 part0 rest).1
            (getClientLoop offC R 0 part0 rest).2.1 (errorMessage e)
        | .connClosed => .failedKeep (getClientLoop offC R 0 part0 rest).1
            (getClientLoop offC R 0 part0 rest).2.1
            "Server closed connection".data
        | .connLost => .failedKeep (getClientLoop offC R 0 part0 rest).1
            (getClientLoop offC R 0 part0 rest).2.1
            "Connection lost".data := by
      unfold do_get_run
      simp only [hok, hlen, if_false, hrem]
      rw [if_neg (by omega)]
    rcases hek : (getClientLoop offC R 0 part0 rest).2.2 with
      _ | _ | e | _ | _ <;> rw [hek] at hred hbounds
    · refine ⟨?_, ?_⟩
      · rw [hred, if_pos (hbounds.2.2.mp rfl)]
        simp [hbounds.2.2.mp rfl]
      · intro hne
        exact absurd (hbounds.2.2.mp rfl) hne
    · have hlt : (getClientLoop offC R 0 part0 rest).1 ≠ R := by
        intro h
        exact absurd (hbounds.2.2.mpr h) (by simp)
      rw [hred, if_neg hlt]
      exact ⟨⟨fun h => GetResult.noConfusion h, fun h => absurd h hlt⟩,
        fun _ => ⟨_, rfl⟩⟩
    · have hlt : (getClientLoop offC R 0 part0 rest).1 ≠ R := by
        intro h
        exact absurd (hbounds.2.2.mpr h) (by simp)
      rw [hred]
      exact ⟨⟨fun h => GetResult.noConfusion h, fun h => absurd h hlt⟩,
        fun _ => ⟨_, rfl⟩⟩
    · have hlt : (getClientLoop offC R 0 part0 rest).1 ≠ R := by
        intro h
        exact absurd (hbounds.2.2.mpr h) (by simp)
      rw [hred]
      exact ⟨⟨fun h => GetResult.noConfusion h, fun h => absurd h hlt⟩,
        fun _ => ⟨_, rfl⟩⟩
    · have hlt : (getClientLoop offC R 0 part0 rest).1 ≠ R := by
        intro h
        exact absurd (hbounds.2.2.mpr h) (by simp)
      rw [hred]
      exact ⟨⟨fun h => GetResult.noConfusion h, fun h => absurd h hlt⟩,
        fun _ => ⟨_, rfl⟩⟩
  · intro hfok
    have hbounds := putClientLoop_bounds F F.length off p0 script
    have hred : do_put_run F off p0 first script =
        match (putClientLoop F F.length off p0 script).2.2 with
        | .errAbort e => .incomplete (putClientLoop F F.length off p0 script).1
            (putClientLoop F F.length off p0 script).2.1 (errorMessage e)
        | .connClosed => .incomplete (putClientLoop F F.length off p0 script).1
            (putClientLoop F F.length off p0 script).2.1
            "Server closed connection".data
        | _ =>
          if (putClientLoop F F.length off p0 script).1 = F.length then
            .completed
          else .incomplete (putClientLoop F F.length off p0 script).1
            (putClientLoop F F.length off p0 script).2.1
            "Upload incomplete".data := by
      unfold do_put_run
      simp only [hfok]
    rcases hek : (putClientLoop F F.length off p0 script).2.2 with
      _ | _ | _ | e | _ <;> rw [hek] at hred hbounds
    · by_cases hs : (putClientLoop F F.length off p0 script).1 = F.length
      · rw [hred, if_pos hs]
        exact ⟨⟨fun _ => hs, fun _ => rfl⟩, fun hne => absurd hs hne⟩
      · rw [hred, if_neg hs]
        exact ⟨⟨fun h => PutResult.noConfusion h, fun h => absurd h hs⟩,
          fun _ => ⟨_, rfl⟩⟩
    · have hs : (putClientLoop F F.length off p0 script).1 ≠ F.length := by
        intro h
        have := hbounds.2.2 (by simp)
        omega
      rw [hred, if_neg hs]
      exact ⟨⟨fun h => PutResult.noConfusion h, fun h => absurd h hs⟩,
        fun _ => ⟨_, rfl⟩⟩
    · have hs : (putClientLoop F F.length off p0 script).1 ≠ F.length := by
        intro h
        have := hbounds.2.2 (by simp)
        omega
      rw [hred, if_neg hs]
      exact ⟨⟨fun h => PutResult.noConfusion h, fun h => absurd h hs⟩,
        fun _ => ⟨_, rfl⟩⟩
    · have hs : (putClientLoop F F.length off p0 script).1 ≠ F.length := by
        intro h
        have := hbounds.2.2 (by simp)
        omega
      rw [hred]
      exact ⟨⟨fun h => PutResult.noConfusion h, fun h => absurd h hs⟩,
        fun _ => ⟨_, rfl⟩⟩
    · have hs : (putClientLoop F F.length off p0 script).1 ≠ F.length := by
        intro h
        have := hbounds.2.2 (by simp)
        omega
      rw [hred]
      exact ⟨⟨fun h => PutResult.noConfusion h, fun h => absurd h hs⟩,
        fun _ => ⟨_, rfl⟩⟩

/-- Claim C5, witness. -/
theorem finalize_iff_exact_completion_witness :
    do_get_run [] 0
        [Event.line "OK 2".data,
          Event.line "NEXT 2".data, Event.bytes [5, 6]] =
      .finalized [5, 6] :=
  ((finalize_iff_exact_completion [] 0 "OK 2".data
        [Event.line "NEXT 2".data, Event.bytes [5, 6]] 2
        [] 0 [] "OK".data []).1
      (by decide) (by decide) (by decide) (by decide)).1.mpr (by decide)

/-- Claim C6, counterexample.  An `OK` first response whose remaining-bytes
field is present but not a valid number is *not* fatal: `OK xyz` has two
whitespace-separated fields, its second field does not parse as an
unsigned integer, yet the GET attempt treats it as `OK 0`
(`parse().unwrap_or(0)`, remcp/src/main.rs:150) and returns success
(`No data to download`) — not an error. -/
theorem malformed_ok_treated_as_success_cex :
    splitWS "OK xyz".data = ["OK".data, "xyz".data] ∧
      parse_usize "xyz".data = none ∧
      do_get_run [] 0 [Event.line "OK xyz".data] = .noData := by
  decide

/-- Claim C6, amended.  In a client GET attempt, a first response parsed as
`NEXT` is fatal (error, no bytes transferred), and an `OK` first response
with fewer than two fields is fatal; but an `OK` first response whose
second field fails to parse is treated as `OK 0` and returns success
with zero bytes transferred.  The fatal errors are custom `io::Error`s
(no OS code, message not containing `Server is busy`), so they never
consume a retry in `try_operation`. -/
theorem malformed_first_response (part0 : List Nat) (offC : Nat)
    (rest : List Event) (l : List Char) (n : Nat) :
    (parse_server_response l = .next n →
      do_get_run part0 offC (Event.line l :: rest) =
        .fatal "Unexpected NEXT in GET".data) ∧
    (parse_server_response l = .ok → (splitWS l).length < 2 →
      do_get_run part0 offC (Event.line l :: rest) =
        .fatal "Invalid server response format".data) ∧
    (parse_server_response l = .ok → 2 ≤ (splitWS l).length →
      parse_usize ((splitWS l).getD 1 []) = none →
      do_get_run part0 offC (Event.line l :: rest) = .noData) ∧
    is_retryable (opErrOfIoMsg "Unexpected NEXT in GET".data) = false ∧
    is_retryable (opErrOfIoMsg "Invalid server response format".data) =
      false := by
  refine ⟨fun hnext => ?_, fun hok hlen => ?_, fun hok hlen hbad => ?_,
    by decide, by decide⟩
  · unfold do_get_run
    simp only [hnext]
  · unfold do_get_run
    simp only [hok, if_pos hlen]
  · unfold do_get_run
    simp only [hok, parse_usize_or0, hbad, Option.getD_none]
    simp [hlen]

/-- Claim C6, witness. -/
theorem malformed_first_response_witness :
    do_get_run [] 0 [Event.line "NEXT 5".data] =
      .fatal "Unexpected NEXT in GET".data :=
  (malformed_first_response [] 0 [] "NEXT 5".data 5).1 (by decide)

theorem writeAt_at_len (l : List Nat) (p : Nat) (h : l.length = p)
    (bs : List Nat) : writeAt l p bs = l ++ bs := by
  subst h
  exact writeAt_eot l bs

/-- The composed ideal-channel PUT, started k bytes in with the remote
file holding exactly the first k bytes of `F`, reconstructs `F` whenever
the chunk size is positive. -/
theorem put_session_complete (chunk : Nat) (hc : 1 ≤ chunk) (F : List Nat) :
    ∀ fuel r, r ≤ F.length → F.length - r ≤ fuel →
      put_session chunk F.length F fuel r (F.take r) = F := by
  intro fuel
  induction fuel with
  | zero =>
    intro r hr hfuel
    have : r = F.length := by omega
    subst this
    simp only [put_session, List.take_length]
  | succ fuel ih =>
    intro r hr hfuel
    by_cases hlt : r < F.length
    · have h1 : ((F.drop r).take (min chunk (F.length - r))).length =
          min chunk (F.length - r) := by
        rw [List.length_take, List.length_drop]
        omega
      simp only [put_session, if_pos hlt, h1]
      rw [if_neg (by omega)]
      have h2 : min (min chunk (F.length - r)) (F.length - r) =
          min chunk (F.length - r) := by omega
      rw [h2]
      have h3 : ((F.drop r).take (min chunk (F.length - r))).take
          (min chunk (F.length - r)) =
          (F.drop r).take (min chunk (F.length - r)) := by
        rw [List.take_take, Nat.min_self]
      rw [h3]
      rw [writeAt_at_len (F.take r) r (by rw [List.length_take]; omega)]
      rw [← List.take_add]
      exact ih (r + min chunk (F.length - r)) (by omega) (by omega)
    · have : r = F.length := by omega
      subst this
      simp only [put_session, if_neg hlt, List.take_length]

/-- The composed ideal-channel GET: the client loop fed by the server's
send loop receives exactly the announced bytes and ends `.done` with the
partial file extended by precisely the remaining slice of the content. -/
theorem get_session (chunk : Nat) (hc : 1 ≤ chunk) (content : List Nat)
    (offset remaining : Nat) (hrem : offset + remaining ≤ content.length) :
    ∀ fuel ts partC, remaining - ts ≤ fuel → ts ≤ remaining →
      partC.length = ts →
      getClientLoop 0 remaining ts partC
          (getSendLoop chunk content offset remaining fuel ts) =
        (remaining,
          partC ++ (content.drop (offset + ts)).take (remaining - ts),
          GEnd.done) := by
  intro fuel
  induction fuel with
  | zero =>
    intro ts partC hfuel hts hlen
    have : ts = remaining := by omega
    subst this
    rw [getSendLoop, getClientLoop.eq_def]
    simp
  | succ fuel ih =>
    intro ts partC hfuel hts hlen
    by_cases hlt : ts < remaining
    · have hto : 1 ≤ min chunk (remaining - ts) := by omega
      have h1 : ((content.drop (offset + ts)).take
          (min chunk (remaining - ts))).length =
          min chunk (remaining - ts) := by
        rw [List.length_take, List.length_drop]
        omega
      rw [getSendLoop]
      simp only [if_pos hlt, h1]
      rw [if_neg (by omega)]
      rw [getClientLoop.eq_def]
      simp only [if_pos hlt, List.cons_append, List.nil_append,
        parse_next_line_cons]
      rw [if_neg (by rw [h1]; omega)]
      have h3 : ((content.drop (offset + ts)).take
          (min chunk (remaining - ts))).take (min chunk (remaining - ts)) =
          (content.drop (offset + ts)).take (min chunk (remaining - ts)) := by
        rw [List.take_take, Nat.min_self]
      rw [h3]
      rw [Nat.zero_add,
        writeAt_at_len partC ts hlen]
      have hrec := ih (ts + min chunk (remaining - ts))
        (partC ++ (content.drop (offset + ts)).take
          (min chunk (remaining - ts)))
        (by omega) (by omega)
        (by rw [List.length_append, h1, hlen])
      have hm : remaining - ts =
          (chunk ⊓ (remaining - ts)) +
            (remaining - (ts + chunk ⊓ (remaining - ts))) := by omega
      have hsplit : List.take (remaining - ts)
            (List.drop (offset + ts) content) =
          List.take (chunk ⊓ (remaining - ts))
              (List.drop (offset + ts) content) ++
            List.take (remaining - (ts + chunk ⊓ (remaining - ts)))
              (List.drop (offset + (ts + chunk ⊓ (remaining - ts)))
                content) := by
        have h := List.take_add (List.drop (offset + ts) content)
          (chunk ⊓ (remaining - ts))
          (remaining - (ts + chunk ⊓ (remaining - ts)))
        rw [List.drop_drop, Nat.add_assoc, ← hm] at h
        exact h
      rw [hrec, hsplit, List.append_assoc]
    · have : ts = remaining := by omega
      subst this
      rw [getSendLoop]
      simp only [if_neg hlt]
      rw [getClientLoop.eq_def]
      simp

/-- Claim C1, counterexample.  The round trip fails for the empty file: the
upload succeeds (creating an empty remote file), but the download gets
`OK 0` and returns success *without creating any local file* — `do_get`
returns on the `remaining_size == 0` path (remcp/src/main.rs:153-156)
before the partial file is even opened, so no local file equal to `F`
exists. -/
theorem round_trip_empty_cex :
    round_trip 256 [] = .noData ∧ round_trip 256 [] ≠ .finalized [] := by
  decide

/-- Claim C1, amended.  For every *nonempty* byte sequence `F`, uploading
`F` (client PUT to server PUT handler) and downloading it back (server
GET handler to client GET) over ideal channels and fresh paths yields a
local file byte-identical to `F`, for any configured rate and any
positive active-client count (the count is at least 1 while a transfer
is being served).  For empty `F` the round trip reports success but
creates no local file — see the counterexample. -/
theorem round_trip_identity (rate active : Nat) (F : List Nat)
    (hactive : 1 ≤ active) (hF : F ≠ []) :
    round_trip (calculate_chunk_size rate active) F = .finalized F := by
  have hc : 1 ≤ calculate_chunk_size rate active := by
    unfold calculate_chunk_size
    rw [if_neg (by omega)]
    exact le_max_left _ _
  have hFlen : 1 ≤ F.length := by
    cases F with
    | nil => exact absurd rfl hF
    | cons a l => simp
  unfold round_trip
  have hput : put_session (calculate_chunk_size rate active) F.length F
      F.length 0 [] = F := by
    have h := put_session_complete (calculate_chunk_size rate active) hc F
      F.length 0 (by omega) (by omega)
    simpa using h
  rw [hput]
  show do_get_run [] 0
      (handle_get_events (some F) 0 (calculate_chunk_size rate active)) =
    GetResult.finalized F
  have hget : handle_get_events (some F) 0 (calculate_chunk_size rate active) =
      Event.line ("OK ".data ++ natChars F.length) ::
        getSendLoop (calculate_chunk_size rate active) F 0 F.length
          F.length 0 := by
    simp only [handle_get_events]
    rw [if_neg (by omega)]
    simp only [Nat.sub_zero]
  rw [hget]
  unfold do_get_run
  simp only [List.cons_append, List.nil_append, parse_ok_line_cons,
    splitWS_ok_line_cons, parse_ok_line, splitWS_ok_line]
  have hparse2 : parse_usize_or0 ((["OK".data, natChars F.length]).getD 1 []) =
      F.length := by
    simp [parse_usize_or0, parse_usize_natChars]
  simp only [List.length_cons, List.length_singleton, hparse2]
  rw [if_neg (by omega), if_neg (by omega)]
  have hsession := get_session (calculate_chunk_size rate active) hc F 0
    F.length (by omega) F.length 0 [] (by omega) (by omega) rfl
  rw [hsession]
  simp

/-- Claim C1, witness. -/
theorem round_trip_identity_witness :
    round_trip (calculate_chunk_size 256 1) [3, 4, 5] = .finalized [3, 4, 5] :=
  round_trip_identity 256 1 [3, 4, 5] (by decide) (by decide)

end RemCp
